import Mathlib

/-!
Shallow embedding of `strongsup/decoder.py` (the `Decoder` class of the
SPEN-Seq2Seq-SemanticParsing repository) together with theorems that settle
the specification claims about it.

External collaborators (parse model, case weighter, value function,
exploration policies, GloVe embeddings, `check_denotation`) are modelled as
function-valued fields: the decoder only ever calls them, so their behaviour
is universally quantified.  Python floats are modelled by `ℚ` (and `ℝ` where
`exp` is involved); numpy arrays by lists; Python `dict` by an association
list with last-write-wins update; Python exceptions by explicit error values.
-/

set_option maxHeartbeats 1000000

/-- Constants for normalization options (`NormalizationOptions` in the source). -/
inductive Normalization where
  | LOCAL
  | GLOBAL
deriving DecidableEq, Repr

/-- Python runtime errors that the modelled code can raise. -/
inductive PyError where
  | assertionError
  | unboundLocalError
deriving DecidableEq, Repr

abbrev Token := String

/-- An utterance: a list of tokens (`utter._tokens` in the source). -/
structure Utterance where
  tokens : List Token
deriving DecidableEq, Repr

/-- An object of the world state (`currObject` with `.position` and `.shape`). -/
structure WorldObject where
  position : Int
  shape : String
deriving DecidableEq, Repr

/-- A world state exposing `all_objects`. -/
structure WorldState where
  allObjects : List WorldObject
deriving DecidableEq, Repr

/-- A world exposing `initial_state`. -/
structure World where
  initialState : WorldState
deriving DecidableEq, Repr

/-- A context bundling utterances and a world. -/
structure Context where
  utterances : List Utterance
  world : World
deriving DecidableEq, Repr

/-- An input example: context plus gold answer (denotations are abstracted as strings). -/
structure Example where
  context : Context
  answer : String
deriving DecidableEq, Repr

/-- An atomic decision, identified by a name (`decision._name` / `decision.name`). -/
structure Decision where
  name : String
deriving DecidableEq, Repr

/-- A parse case: one decision point of a path.  Opaque to the decoder, which
only ever counts, concatenates and forwards cases; identity is an id. -/
structure ParseCase where
  id : Nat
deriving DecidableEq, Repr

/-- A parse path.  Iterating a path in Python yields its cases and `len(path)`
is the number of cases; `log_prob`, `score`, `decisions`, `context` and
`finalized_denotation` are the attributes the decoder reads.  `terminated` is
the flag that `Beam.get_terminated` filters on. -/
structure ParsePath where
  cases : List ParseCase
  decisions : List Decision
  logProb : ℚ
  score : ℚ
  terminated : Bool
  finalizedDenotation : String
  context : Context
deriving DecidableEq, Repr

/-- A beam: an ordered collection of parse paths (`beam._paths`). -/
structure Beam where
  paths : List ParsePath
deriving DecidableEq, Repr

/-- Modelled from the spec: `Beam.get_terminated` lives in the repository's
beam module, which is not part of the given sources.  The spec describes it as
"the subset of terminated (complete) paths" of the beam, in beam order. -/
def Beam.getTerminated (b : Beam) : Beam :=
  ⟨b.paths.filter (fun p => p.terminated)⟩

/-- A value-function training example (`ValueFunctionExample`), opaque here. -/
structure ValueFunctionExample where
  id : Nat
deriving DecidableEq, Repr

/-- An exploration policy: the decoder only calls `get_beams` and
`get_intermediate_beams` (arguments: examples, verbose flag). -/
structure ExplorationPolicy where
  getBeams : List Example → Bool → List Beam
  getIntermediateBeams : List Example → Bool → List Beam

/-- A predicate of the vocabulary, exposing `name`. -/
structure Predicate where
  name : String
deriving DecidableEq, Repr

/-- Python `dict` update `d[k] = v`: an existing key keeps its position and has
its value overwritten; a new key is appended. -/
def dictInsert (d : List (String × Nat)) (k : String) (v : Nat) : List (String × Nat) :=
  if d.any (fun p => p.1 == k) then
    d.map (fun p => if p.1 == k then (k, v) else p)
  else
    d ++ [(k, v)]

/-- Python `dict` lookup: the value of the (unique) entry with the given key. -/
def dictLookup (d : List (String × Nat)) (k : String) : Option Nat :=
  (d.find? (fun p => p.1 == k)).map Prod.snd

/-- Decoder._build_predicate_dictionary: `for i, predicate in enumerate(predicates):
predicate_dict[predicate.name] = i`. -/
def buildPredicateDictionary (predicates : List Predicate) : List (String × Nat) :=
  predicates.enum.foldl (fun d ip => dictInsert d ip.2.name ip.1) []

/-- The one-hot row: `np.zeros(size)` with entry `idx` set to 1. -/
def oneHotRow (size idx : Nat) : List ℚ :=
  (List.range size).map (fun j => if j = idx then 1 else 0)

/-- Decoder.decisions_to_one_hot: for each decision name, a zero vector of
length `len(pred_dict)` with a 1 at `pred_dict[decision]`.  A missing key
(Python `KeyError`) or an out-of-range index (numpy `IndexError`) is `none`. -/
def decisionsToOneHot (dict : List (String × Nat)) :
    List String → Option (List (List ℚ))
  | [] => some []
  | dec :: rest =>
    match dictLookup dict dec with
    | none => none
    | some idx =>
      if idx < dict.length then
        match decisionsToOneHot dict rest with
        | none => none
        | some out => some (oneHotRow dict.length idx :: out)
      else none

/-- np.min of a list of rationals (the branch using it guards against empty input). -/
def minList (l : List ℚ) : ℚ :=
  match l with
  | [] => 0
  | x :: xs => xs.foldl min x

/-- The global-normalization arithmetic of `get_probs`: subtract the beam
minimum from every score, then divide by the sum of the shifted scores. -/
def globalProbs (scores : List ℚ) : List ℚ :=
  let stuff := scores.map (fun s => s - minList scores)
  stuff.map (fun s => s / stuff.sum)

/-- The decoder.  Configuration values fixed at construction together with the
function-valued external collaborators it closes over. -/
structure Decoder where
  normalization : Normalization
  caching : Bool
  utterLen : Nat
  maxStackSize : Nat
  predicate2index : List (String × Nat)
  predicateEmbedderType : String
  gloveEmbeddings : Token → ℚ
  checkDenotation : String → String → Bool
  pathChecker : ParsePath → Bool
  caseWeighter : Beam → Example → List (List ℚ)
  vfExamplesFromPaths : Beam → Example → List ValueFunctionExample
  pmScoreBreakdown : List ParseCase → Bool → Bool → List ℚ × List ℚ
  trainExplorationPolicy : ExplorationPolicy
  testExplorationPolicy : ExplorationPolicy

/-- Decoder.exploration_policy: returns the train or the test policy instance
stored at construction. -/
def Decoder.explorationPolicy (d : Decoder) (train : Bool) : ExplorationPolicy :=
  if train then d.trainExplorationPolicy else d.testExplorationPolicy

/-- Decoder.get_probs: probabilities of the paths of a beam.  Empty beam gives
`np.zeros(0)`; local normalization gives `exp(log_prob)` per path; otherwise
the min-shifted, sum-normalized scores. -/
noncomputable def Decoder.getProbs (d : Decoder) (beam : Beam) : List ℝ :=
  if beam.paths.length = 0 then []
  else if d.normalization = Normalization.LOCAL then
    beam.paths.map (fun p => Real.exp (p.logProb : ℝ))
  else
    (globalProbs (beam.paths.map ParsePath.score)).map (Rat.cast : ℚ → ℝ)

/-- Decoder.predictions: pick the exploration policy for the mode, get one
beam per example, and keep each beam's terminated paths. -/
def Decoder.predictions (d : Decoder) (examples : List Example)
    (train : Bool) (verbose : Bool) : List Beam :=
  let ep := d.explorationPolicy train
  let beams := ep.getBeams examples verbose
  beams.map Beam.getTerminated

/-- Python slice `l[a:b]` for `a ≤ b`. -/
def listSlice (l : List α) (a b : Nat) : List α :=
  (l.drop a).take (b - a)

/-- The entry `cumul[i]` of `score_breakdown`: total case count of the first
`i` paths. -/
def cumulCaseCount (paths : List ParsePath) (i : Nat) : Nat :=
  (((paths.take i).map (fun p => p.cases.length)).sum)

/-- Decoder.score_breakdown: flatten all cases of all paths, call the parse
model once (ignore_previous_utterances=False, caching=False), and re-split the
two result lists at the recorded path boundaries. -/
def Decoder.scoreBreakdown (d : Decoder) (paths : List ParsePath) :
    List (List ℚ) × List (List ℚ) :=
  if paths.length = 0 then ([], [])
  else
    let cases := (paths.map ParsePath.cases).flatten
    let res := d.pmScoreBreakdown cases false false
    let groupedAttentions := (List.range paths.length).map
      (fun i => listSlice res.1 (cumulCaseCount paths i) (cumulCaseCount paths (i + 1)))
    let groupedSubscores := (List.range paths.length).map
      (fun i => listSlice res.2 (cumulCaseCount paths i) (cumulCaseCount paths (i + 1)))
    (groupedAttentions, groupedSubscores)

/-- The mutable per-instance state of the decoder: step counter, the two
running prediction counters, and the `_decomposable_data` slot. -/
structure DecoderState where
  trainStepCount : Int
  correctPredictions : Nat
  allPredictions : Nat
  decomposableData : Option (List (String × String × Nat))
deriving DecidableEq, Repr

/-- The counters as `__init__` leaves them (lines 64, 67-69 of the source). -/
def DecoderState.initial : DecoderState :=
  { trainStepCount := 0
    correctPredictions := 0
    allPredictions := 0
    decomposableData := none }

/-- The utterance embedding matrix of `train_decomposable_batches`: GloVe
vector per token of every utterance of the context, padded with zeros up to
`utter_len` (vectors abstracted to single rationals). -/
def utterEmbeds (d : Decoder) (ctx : Context) : List ℚ :=
  let raw := (ctx.utterances.map (fun u => u.tokens.map d.gloveEmbeddings)).flatten
  raw ++ List.replicate (d.utterLen - raw.length) 0

/-- The `sentence_for_print` string: every token of every utterance followed
by a space. -/
def sentenceForDisplay (ctx : Context) : String :=
  ctx.utterances.foldl (fun acc u => u.tokens.foldl (fun a t => a ++ t ++ " ") acc) ""

/-- The `world_state` string: for each object, a space, its position, a colon
and its shape. -/
def worldStateString (ex : Example) : String :=
  ex.context.world.initialState.allObjects.foldl
    (fun acc o => acc ++ " " ++ toString o.position ++ ":" ++ o.shape) ""

/-- The `full_decision_for_print` string: a space and the decision name, per
decision of the path. -/
def fullDecisionString (path : ParsePath) : String :=
  path.decisions.foldl (fun acc dec => acc ++ " " ++ dec.name) ""

/-- The local variables of the loop of `train_decomposable_batches` that
survive an iteration, plus the two counters it mutates on `self`.
`beamBatchCorrect = none` models the Python local `beam_batch_correct` being
unbound.  (`indexes` and `y_hat_new` are also locals but are dead: they are
recomputed per example and never read afterwards.) -/
structure DecompState where
  beamBatch0 : List (List ℚ)
  yHatBatch : List (List Nat)
  decisions : List String
  utterances : List String
  worldStates : List String
  beamBatchCorrect : Option (List (List ℚ))
  correct : Nat
  allPreds : Nat

/-- The body of the inner per-path loop of `train_decomposable_batches`:
label the path by denotation correctness, bump the prediction counters, and
append the display strings; a correct path is also appended to
`beam_batch_correct`. -/
def decompPathStep (d : Decoder) (ex : Example) (uEmb : List ℚ)
    (sentence ws : String) (st2 : DecompState) (path : ParsePath) : DecompState :=
  let cd := d.checkDenotation ex.answer path.finalizedDenotation
  { st2 with
    yHatBatch := st2.yHatBatch ++ [if cd then [0, 1] else [1, 0]]
    correct := st2.correct + (if cd then 1 else 0)
    allPreds := st2.allPreds + 1
    beamBatch0 := st2.beamBatch0 ++ [uEmb]
    decisions := st2.decisions ++ [fullDecisionString path]
    utterances := st2.utterances ++ [sentence]
    worldStates := st2.worldStates ++ [ws]
    beamBatchCorrect :=
      if cd then some ((st2.beamBatchCorrect.getD []) ++ [uEmb])
      else st2.beamBatchCorrect }

/-- One iteration of the per-example loop of `train_decomposable_batches`:
skip empty beams, otherwise rebind `beam_batch_correct` and process every
path of the beam. -/
def decompExampleStep (d : Decoder) (ex : Example) (beam : Beam)
    (st : DecompState) : DecompState :=
  match beam.paths with
  | [] => st
  | p0 :: rest =>
    (p0 :: rest).foldl
      (decompPathStep d ex (utterEmbeds d p0.context)
        (sentenceForDisplay p0.context) (worldStateString ex))
      { st with beamBatchCorrect := some [] }

/-- Decoder.train_decomposable_batches.  Increments `_train_step_count`
first; returns `None` when the counter is negative; loops over
`zip(examples, beams)` skipping empty beams; after the loop converts
`beam_batch_correct`, which raises `UnboundLocalError` when no iteration
bound it; otherwise returns the `decomposable_data` triples
`(utterance, decisions, y_hat[1])`.  The returned state carries the counter
and prediction-counter mutations that happened before any raise. -/
def trainDecomposableBatches (d : Decoder) (s : DecoderState)
    (beams : List Beam) (examples : List Example) :
    DecoderState × Except PyError (Option (List (String × String × Nat))) :=
  let s1 := { s with trainStepCount := s.trainStepCount + 1 }
  if s1.trainStepCount < 0 then
    (s1, Except.ok none)
  else
    let st0 : DecompState :=
      { beamBatch0 := [], yHatBatch := [], decisions := [], utterances := []
        worldStates := [], beamBatchCorrect := none
        correct := s1.correctPredictions, allPreds := s1.allPredictions }
    let fin := (examples.zip beams).foldl
      (fun st p => decompExampleStep d p.1 p.2 st) st0
    let s2 := { s1 with correctPredictions := fin.correct, allPredictions := fin.allPreds }
    match fin.beamBatchCorrect with
    | none => (s2, Except.error PyError.unboundLocalError)
    | some _ =>
      let data := (fin.utterances.zip (fin.decisions.zip fin.yHatBatch)).map
        (fun t => (t.1, t.2.1, t.2.2.getD 1 0))
      (s2, Except.ok (some data))

/-- The first loop of `train_step`: per example, flatten the case-weighter
output and the beam's cases, asserting that the weight count equals the
beam's total case count; concatenate everything in example order. -/
def collectCases (d : Decoder) :
    List (Example × Beam) → Except PyError (List ParseCase × List ℚ)
  | [] => Except.ok ([], [])
  | (ex, beam) :: rest =>
    let caseWeights := (d.caseWeighter beam ex).flatten
    let cases := (beam.paths.map ParsePath.cases).flatten
    if caseWeights.length = ((beam.paths.map (fun p => p.cases.length)).sum) then
      match collectCases d rest with
      | Except.ok (cs, ws) => Except.ok (cases ++ cs, caseWeights ++ ws)
      | Except.error e => Except.error e
    else
      Except.error PyError.assertionError

/-- The pruning loop of `train_step`: keep exactly the case/weight pairs with
non-zero weight, in order. -/
def pruneZeroWeights (cases : List ParseCase) (weights : List ℚ) :
    List ParseCase × List ℚ :=
  let kept := (cases.zip weights).filter (fun cw => cw.2 != 0)
  (kept.map Prod.fst, kept.map Prod.snd)

/-- The observable outcome of one `train_step` call: the final decoder state,
the value-function updates issued (`_value_function.train_step` calls), the
parse-model updates issued (`_parse_model.train_step(cases, weights,
caching=False)` calls, recorded with the caching flag), and the error the call
raised, if any. -/
structure TrainStepOutcome where
  state : DecoderState
  vfUpdates : List (List ValueFunctionExample)
  pmUpdates : List (List ParseCase × List ℚ × Bool)
  error : Option PyError
deriving DecidableEq, Repr

/-- Decoder.train_step: sample beams via `predictions(train=True)`, run
`train_decomposable_batches` (storing its result in `_decomposable_data`),
flatten cases and weights with the per-example assertion, prune zero weights,
issue one value-function update and one parse-model update.  An error raised
at any stage aborts the call there, with the state mutations made so far. -/
def Decoder.trainStep (d : Decoder) (s : DecoderState) (examples : List Example) :
    TrainStepOutcome :=
  let beams := d.predictions examples true false
  match trainDecomposableBatches d s beams examples with
  | (s1, Except.error e) =>
    { state := s1, vfUpdates := [], pmUpdates := [], error := some e }
  | (s1, Except.ok dd) =>
    let s2 := { s1 with decomposableData := dd }
    match collectCases d (examples.zip beams) with
    | Except.error e =>
      { state := s2, vfUpdates := [], pmUpdates := [], error := some e }
    | Except.ok (allCases, allCaseWeights) =>
      let pruned := pruneZeroWeights allCases allCaseWeights
      let vfExamples := ((examples.zip beams).map
        (fun p => d.vfExamplesFromPaths p.2 p.1)).flatten
      { state := s2
        vfUpdates := [vfExamples]
        pmUpdates := [(pruned.1, pruned.2, false)]
        error := none }

/-- The decoder section of the configuration: the fields the constructor
reads.  Selector fields are strings resolved by external factories. -/
structure Config where
  normalization : Normalization
  inputsCaching : Bool
  valueFunction : String
  caseWeighter : String
  trainExplorationPolicy : String
  testExplorationPolicy : String

/-- The external factories and module-level functions `__init__` and the
methods call: `get_value_function`, `get_case_weighter`,
`get_exploration_policy` (selector, normalization, train flag),
`ValueFunctionExample.examples_from_paths`, `check_denotation`, the parse
model's `score_breakdown`, the domain's `path_checker`, and the GloVe table. -/
structure Externals where
  getValueFunction : String → Unit
  getCaseWeighter : String → (Beam → Example → List (List ℚ))
  getExplorationPolicy : String → Normalization → Bool → ExplorationPolicy
  vfExamplesFromPaths : Beam → Example → List ValueFunctionExample
  checkDenotation : String → String → Bool
  pmScoreBreakdown : List ParseCase → Bool → Bool → List ℚ × List ℚ
  pathChecker : ParsePath → Bool
  gloveEmbeddings : Token → ℚ

/-- Decoder.__init__: store the configuration and collaborators, then check
the normalization mode — `global` raises `ValueError` there, before the
predicate dictionary, the decomposable model and the exploration policies are
built, so no `Decoder` value exists for a global configuration. -/
def Decoder.mkDecoder (ext : Externals) (config : Config) (predicates : List Predicate)
    (utterLen maxStackSize : Nat) (predicateEmbedderType : String) :
    Except String Decoder :=
  let valueFunction := ext.getValueFunction config.valueFunction
  let caseWeighter := ext.getCaseWeighter config.caseWeighter
  let _ := valueFunction
  if config.normalization = Normalization.GLOBAL then
    Except.error "Global normalization is no longer supported."
  else
    Except.ok
      { normalization := config.normalization
        caching := config.inputsCaching
        utterLen := utterLen
        maxStackSize := maxStackSize
        predicate2index := buildPredicateDictionary predicates
        predicateEmbedderType := predicateEmbedderType
        gloveEmbeddings := ext.gloveEmbeddings
        checkDenotation := ext.checkDenotation
        pathChecker := ext.pathChecker
        caseWeighter := caseWeighter
        vfExamplesFromPaths := ext.vfExamplesFromPaths
        pmScoreBreakdown := ext.pmScoreBreakdown
        trainExplorationPolicy :=
          ext.getExplorationPolicy config.trainExplorationPolicy config.normalization true
        testExplorationPolicy :=
          ext.getExplorationPolicy config.testExplorationPolicy config.normalization false }

/-! Shared concrete objects used by witnesses and counterexamples. -/

/-- An exploration policy that returns no beams; used as a placeholder. -/
def emptyPolicy : ExplorationPolicy :=
  ⟨fun _ _ => [], fun _ _ => []⟩

/-- An exploration policy returning one fixed beam per example. -/
def constPolicy (b : Beam) : ExplorationPolicy :=
  ⟨fun exs _ => exs.map (fun _ => b), fun exs _ => exs.map (fun _ => b)⟩

/-- A trivially-instantiated bundle of external collaborators. -/
def extSample : Externals :=
  { getValueFunction := fun _ => ()
    getCaseWeighter := fun _ => fun _ _ => []
    getExplorationPolicy := fun _ _ _ => emptyPolicy
    vfExamplesFromPaths := fun _ _ => []
    checkDenotation := fun a b => a == b
    pmScoreBreakdown := fun cs _ _ => (cs.map (fun _ => 0), cs.map (fun _ => 0))
    pathChecker := fun _ => true
    gloveEmbeddings := fun _ => 0 }

/-- A decoder with trivial collaborators, used as a base for concrete tests. -/
def baseDecoder : Decoder :=
  { normalization := Normalization.LOCAL
    caching := false
    utterLen := 0
    maxStackSize := 0
    predicate2index := []
    predicateEmbedderType := "one_hot"
    gloveEmbeddings := fun _ => 0
    checkDenotation := fun a b => a == b
    pathChecker := fun _ => true
    caseWeighter := fun _ _ => []
    vfExamplesFromPaths := fun _ _ => []
    pmScoreBreakdown := fun cs _ _ => (cs.map (fun _ => 0), cs.map (fun _ => 0))
    trainExplorationPolicy := emptyPolicy
    testExplorationPolicy := emptyPolicy }

/-- The empty context. -/
def ctx0 : Context := ⟨[], ⟨⟨[]⟩⟩⟩

/-- Build a concrete parse path from case ids, log-prob, score, termination
flag and denotation. -/
def mkPath (cs : List Nat) (lp sc : ℚ) (term : Bool) (den : String) : ParsePath :=
  ⟨cs.map ParseCase.mk, [], lp, sc, term, den, ctx0⟩

/-- A concrete example input. -/
def exampleA : Example := ⟨ctx0, "ansA"⟩

/-- A configuration asking for global normalization. -/
def globalConfig : Config :=
  ⟨Normalization.GLOBAL, false, "vf", "cw", "tr", "te"⟩

/-! Claim C3. -/

/-- C3: constructing a decoder with `normalization = global` raises the fatal
`ValueError` during construction; no `Decoder` value is produced, so the error
cannot be deferred to `get_probs` or any other operation. -/
theorem mkDecoder_global_normalization_fails (ext : Externals) (config : Config)
    (predicates : List Predicate) (utterLen maxStackSize : Nat) (pet : String)
    (h : config.normalization = Normalization.GLOBAL) :
    Decoder.mkDecoder ext config predicates utterLen maxStackSize pet
      = Except.error "Global normalization is no longer supported." := by
  simp [Decoder.mkDecoder, h]

/-- Witness for C3 at a concrete global configuration. -/
theorem mkDecoder_global_normalization_fails_witness :
    Decoder.mkDecoder extSample globalConfig [] 0 0 "one_hot"
      = Except.error "Global normalization is no longer supported." :=
  mkDecoder_global_normalization_fails extSample globalConfig [] 0 0 "one_hot" rfl

/-! Claim C5. -/

/-- The global-normalization arithmetic keeps the number of entries. -/
theorem globalProbs_length (scores : List ℚ) :
    (globalProbs scores).length = scores.length := by
  simp only [globalProbs, List.length_map]

/-- C5: for every beam and either normalization mode, `get_probs` returns as
many probabilities as the beam has paths, and an empty beam yields the empty
array (the function is total: no error is possible). -/
theorem getProbs_length_spec (d : Decoder) (beam : Beam) :
    (d.getProbs beam).length = beam.paths.length
    ∧ d.getProbs ⟨[]⟩ = [] := by
  constructor
  · unfold Decoder.getProbs
    by_cases h : beam.paths.length = 0
    · simp [h]
    · by_cases hl : d.normalization = Normalization.LOCAL
      · simp [h, hl]
      · simp [h, hl, globalProbs_length]
  · simp [Decoder.getProbs]

/-! Claim C4. -/

/-- C4: under local normalization the i-th probability of `get_probs` is the
exponential of the i-th path's log-probability, every entry is non-negative,
and the entries are not required to sum to 1 (an explicit beam whose
probabilities sum to 2 exists). -/
theorem getProbs_local_spec (d : Decoder) (beam : Beam)
    (hn : d.normalization = Normalization.LOCAL) :
    (∀ i : Nat, (d.getProbs beam).get? i
        = (beam.paths.get? i).map (fun p => Real.exp (p.logProb : ℝ)))
    ∧ (∀ x ∈ d.getProbs beam, 0 ≤ x)
    ∧ (∃ b : Beam, (d.getProbs b).sum ≠ 1) := by
  refine ⟨?_, ?_, ?_⟩
  · intro i
    unfold Decoder.getProbs
    by_cases h : beam.paths.length = 0
    · have hnil : beam.paths = [] := List.length_eq_zero.mp h
      simp [h, hnil]
    · simp [h, hn, List.get?_map]
  · intro x hx
    unfold Decoder.getProbs at hx
    by_cases h : beam.paths.length = 0
    · simp [h] at hx
    · simp only [h, hn, if_neg, if_pos, ite_true, ite_false] at hx
      rcases List.mem_map.mp hx with ⟨p, _, rfl⟩
      exact (Real.exp_pos _).le
  · refine ⟨⟨[mkPath [] 0 0 true "", mkPath [] 0 0 true ""]⟩, ?_⟩
    simp [Decoder.getProbs, hn, mkPath, Real.exp_zero]

/-- Witness for C4: a concrete local-normalization decoder and beam. -/
theorem getProbs_local_spec_witness :
    (baseDecoder.getProbs ⟨[mkPath [] 1 0 true "d"]⟩).get? 0
      = ((⟨[mkPath [] 1 0 true "d"]⟩ : Beam).paths.get? 0).map
          (fun p => Real.exp (p.logProb : ℝ)) :=
  (getProbs_local_spec baseDecoder ⟨[mkPath [] 1 0 true "d"]⟩ rfl).1 0

/-! Claim C9. -/

/-- A left fold by `min` is bounded by its initial value. -/
theorem foldl_min_le_init (l : List ℚ) : ∀ a : ℚ, l.foldl min a ≤ a := by
  induction l with
  | nil => intro a; exact le_refl a
  | cons x xs ih => intro a; exact le_trans (ih (min a x)) (min_le_left a x)

/-- A left fold by `min` is bounded by every list element. -/
theorem foldl_min_le_mem (l : List ℚ) : ∀ a x : ℚ, x ∈ l → l.foldl min a ≤ x := by
  induction l with
  | nil => intro a x hx; cases hx
  | cons y ys ih =>
    intro a x hx
    rcases List.mem_cons.mp hx with h | h
    · subst h; exact le_trans (foldl_min_le_init ys (min a x)) (min_le_right a x)
    · exact ih (min a y) x h

/-- `minList` is a lower bound of every element. -/
theorem minList_le (l : List ℚ) (x : ℚ) (hx : x ∈ l) : minList l ≤ x := by
  cases l with
  | nil => cases hx
  | cons y ys =>
    rcases List.mem_cons.mp hx with h | h
    · subst h; exact foldl_min_le_init ys x
    · exact foldl_min_le_mem ys y x h

/-- Dividing every entry by a constant divides the sum. -/
theorem sum_map_div (l : List ℚ) (c : ℚ) :
    (l.map (fun x => x / c)).sum = l.sum / c := by
  induction l with
  | nil => simp
  | cons a t ih => simp [ih, add_div]

/-- Casting every entry to the reals casts the sum. -/
theorem sum_map_ratCast (l : List ℚ) :
    (l.map (Rat.cast : ℚ → ℝ)).sum = ((l.sum : ℚ) : ℝ) := by
  induction l with
  | nil => simp
  | cons a t ih => simp only [List.map_cons, List.sum_cons, ih, Rat.cast_add]

/-- C9 (amended): under global normalization, whenever some path score of the
beam exceeds the beam minimum (in particular the beam is non-empty), the
probabilities returned by `get_probs` are exactly the min-shifted scores
divided by their sum, no intermediate value (shifted score or their sum) is
negative, every returned probability is non-negative, and the probabilities
sum to 1. -/
theorem getProbs_global_spec (d : Decoder) (beam : Beam)
    (hn : d.normalization = Normalization.GLOBAL)
    (hdiff : ∃ s ∈ beam.paths.map ParsePath.score,
        minList (beam.paths.map ParsePath.score) < s) :
    d.getProbs beam
      = (globalProbs (beam.paths.map ParsePath.score)).map (Rat.cast : ℚ → ℝ)
    ∧ (∀ x ∈ (beam.paths.map ParsePath.score).map
          (fun s => s - minList (beam.paths.map ParsePath.score)), 0 ≤ x)
    ∧ 0 < ((beam.paths.map ParsePath.score).map
          (fun s => s - minList (beam.paths.map ParsePath.score))).sum
    ∧ (∀ x ∈ d.getProbs beam, 0 ≤ x)
    ∧ (d.getProbs beam).sum = 1 := by
  obtain ⟨s0, hs0, hlt0⟩ := hdiff
  have hnonneg : ∀ x ∈ (beam.paths.map ParsePath.score).map
      (fun s => s - minList (beam.paths.map ParsePath.score)), 0 ≤ x := by
    intro x hx
    rcases List.mem_map.mp hx with ⟨s, hs, rfl⟩
    have := minList_le (beam.paths.map ParsePath.score) s hs
    linarith
  have hmem0 : s0 - minList (beam.paths.map ParsePath.score)
      ∈ (beam.paths.map ParsePath.score).map
        (fun s => s - minList (beam.paths.map ParsePath.score)) :=
    List.mem_map_of_mem _ hs0
  have hsumpos : 0 < ((beam.paths.map ParsePath.score).map
      (fun s => s - minList (beam.paths.map ParsePath.score))).sum := by
    have hle := List.single_le_sum hnonneg _ hmem0
    linarith
  have hnl : beam.paths.length ≠ 0 := by
    intro h
    have : beam.paths = [] := List.length_eq_zero.mp h
    rw [this] at hs0
    simp at hs0
  have heq : d.getProbs beam
      = (globalProbs (beam.paths.map ParsePath.score)).map (Rat.cast : ℚ → ℝ) := by
    unfold Decoder.getProbs
    rw [if_neg hnl, if_neg]
    rw [hn]
    intro hcontra
    exact Normalization.noConfusion hcontra
  have hgp : globalProbs (beam.paths.map ParsePath.score)
      = ((beam.paths.map ParsePath.score).map
          (fun s => s - minList (beam.paths.map ParsePath.score))).map
        (fun x => x / ((beam.paths.map ParsePath.score).map
          (fun s => s - minList (beam.paths.map ParsePath.score))).sum) := rfl
  have hqsum : (globalProbs (beam.paths.map ParsePath.score)).sum = 1 := by
    rw [hgp, sum_map_div, div_self (ne_of_gt hsumpos)]
  refine ⟨heq, hnonneg, hsumpos, ?_, ?_⟩
  · intro x hx
    rw [heq] at hx
    rcases List.mem_map.mp hx with ⟨q, hq, rfl⟩
    rw [hgp] at hq
    rcases List.mem_map.mp hq with ⟨y, hy, rfl⟩
    have h0y := hnonneg y hy
    have : (0:ℚ) ≤ y / ((beam.paths.map ParsePath.score).map
        (fun s => s - minList (beam.paths.map ParsePath.score))).sum :=
      div_nonneg h0y (le_of_lt hsumpos)
    exact_mod_cast this
  · rw [heq, sum_map_ratCast, hqsum]
    norm_num

/-- A decoder forced into global normalization (bypassing the constructor,
which rejects it; the spec discusses this mode hypothetically). -/
def globalDecoder : Decoder :=
  { baseDecoder with normalization := Normalization.GLOBAL }

/-- A non-empty beam whose only path has score 5, so all scores are equal. -/
def beamConstScore : Beam := ⟨[mkPath [0] 0 5 true "d"]⟩

/-- Counterexample to C9 as stated: for this non-empty beam all scores equal
the minimum, the shifted sum is 0, and the returned probabilities do not sum
to 1 (the Python code divides by `np.sum(stuff) == 0.0` and produces NaN; in
the rational model the division by zero yields 0). -/
theorem getProbs_global_sum_counterexample :
    beamConstScore.paths ≠ []
    ∧ globalDecoder.normalization = Normalization.GLOBAL
    ∧ (globalDecoder.getProbs beamConstScore).sum ≠ 1 := by
  refine ⟨by simp [beamConstScore], rfl, ?_⟩
  have h1 : globalDecoder.getProbs beamConstScore = [(0:ℝ)] := by
    unfold Decoder.getProbs
    norm_num [globalDecoder, baseDecoder, beamConstScore, mkPath, globalProbs, minList]
    decide
  rw [h1]
  norm_num

/-- A beam with two paths of scores 1 and 3. -/
def beamTwoScores : Beam :=
  ⟨[mkPath [0] 0 1 true "d", mkPath [1] 0 3 true "d"]⟩

/-- Witness for the amended C9 at a concrete beam with distinct scores. -/
theorem getProbs_global_spec_witness :
    (globalDecoder.getProbs beamTwoScores).sum = 1 :=
  (getProbs_global_spec globalDecoder beamTwoScores rfl
    ⟨3, by simp [beamTwoScores, mkPath],
      by norm_num [beamTwoScores, mkPath, minList, min_def]⟩).2.2.2.2

/-! Claim C7. -/

/-- Looking a key up in a dictionary with one more entry in front. -/
theorem dictLookup_cons (a : String) (b : Nat) (rest : List (String × Nat)) (n : String) :
    dictLookup ((a, b) :: rest) n = if a = n then some b else dictLookup rest n := by
  by_cases h : a = n <;> simp [dictLookup, List.find?_cons, h]

/-- Overwriting the entries of a key different from the one looked up changes
nothing. -/
theorem dictLookup_map_ne (d : List (String × Nat)) (k : String) (v : Nat)
    (n : String) (hkn : k ≠ n) :
    dictLookup (d.map (fun p => if p.1 == k then (k, v) else p)) n = dictLookup d n := by
  induction d with
  | nil => rfl
  | cons p rest ih =>
    obtain ⟨a, b⟩ := p
    by_cases h : a = k
    · subst h
      simp only [List.map_cons, beq_self_eq_true, ite_true]
      rw [dictLookup_cons, dictLookup_cons, if_neg hkn, if_neg hkn, ih]
    · simp only [List.map_cons]
      rw [if_neg (by simp [h]), dictLookup_cons, dictLookup_cons, ih]

/-- Overwriting the looked-up key's entry returns the new value, provided the
key is present. -/
theorem dictLookup_map_eq (d : List (String × Nat)) (k : String) (v : Nat)
    (hany : d.any (fun p => p.1 == k) = true) :
    dictLookup (d.map (fun p => if p.1 == k then (k, v) else p)) k = some v := by
  induction d with
  | nil => simp at hany
  | cons p rest ih =>
    obtain ⟨a, b⟩ := p
    by_cases h : a = k
    · subst h
      simp only [List.map_cons, beq_self_eq_true, ite_true]
      rw [dictLookup_cons, if_pos rfl]
    · have hany2 : rest.any (fun p => p.1 == k) = true := by
        simp only [List.any_cons, Bool.or_eq_true, beq_iff_eq] at hany
        rcases hany with h1 | h1
        · exact absurd h1 h
        · exact h1
      simp only [List.map_cons]
      rw [if_neg (by simp [h]), dictLookup_cons, if_neg h]
      exact ih hany2

/-- Appending a fresh key at the end: lookups of that key find it, lookups of
other keys are unchanged. -/
theorem dictLookup_append_fresh (d : List (String × Nat)) (k : String) (v : Nat)
    (n : String) (hfresh : ∀ p ∈ d, p.1 ≠ k) :
    dictLookup (d ++ [(k, v)]) n = if k = n then some v else dictLookup d n := by
  induction d with
  | nil =>
    simp only [List.nil_append]
    rw [dictLookup_cons]
  | cons p rest ih =>
    obtain ⟨a, b⟩ := p
    have ha : a ≠ k := hfresh (a, b) (List.mem_cons_self _ _)
    have hfresh2 : ∀ p ∈ rest, p.1 ≠ k := fun p hp => hfresh p (List.mem_cons_of_mem _ hp)
    simp only [List.cons_append]
    rw [dictLookup_cons, dictLookup_cons, ih hfresh2]
    split_ifs with h1 h2
    · exact absurd (h2.trans h1.symm) (Ne.symm ha)
    · rfl
    · rfl
    · rfl

/-- Python dict assignment `d[k] = v` followed by a lookup. -/
theorem dictLookup_dictInsert (d : List (String × Nat)) (k : String) (v : Nat)
    (n : String) :
    dictLookup (dictInsert d k v) n = if k = n then some v else dictLookup d n := by
  unfold dictInsert
  by_cases hany : d.any (fun p => p.1 == k) = true
  · rw [if_pos hany]
    by_cases hkn : k = n
    · subst hkn
      rw [if_pos rfl]
      exact dictLookup_map_eq d k v hany
    · rw [dictLookup_map_ne d k v n hkn, if_neg hkn]
  · rw [if_neg hany]
    apply dictLookup_append_fresh
    intro p hp hpk
    exact hany (List.any_eq_true.mpr ⟨p, hp, by simp [hpk]⟩)

/-- The zero-based position of the last occurrence of a predicate name in a
list, if any; this is what the spec says the dictionary maps each name to. -/
def lastIdx : List Predicate → String → Option Nat
  | [], _ => none
  | p :: rest, n =>
    match lastIdx rest n with
    | some j => some (j + 1)
    | none => if p.name = n then some 0 else none

/-- Folding dict insertions over an enumerated predicate list realizes
last-occurrence lookup, offset by the enumeration start. -/
theorem dictLookup_foldInsert (ps : List Predicate) :
    ∀ (d : List (String × Nat)) (k : Nat) (n : String),
    dictLookup ((List.enumFrom k ps).foldl (fun acc ip => dictInsert acc ip.2.name ip.1) d) n
      = match lastIdx ps n with
        | some j => some (k + j)
        | none => dictLookup d n := by
  induction ps with
  | nil => intro d k n; rfl
  | cons p rest ih =>
    intro d k n
    have henum : List.enumFrom k (p :: rest) = (k, p) :: List.enumFrom (k + 1) rest := rfl
    rw [henum, List.foldl_cons, ih]
    cases hrest : lastIdx rest n with
    | some j =>
      simp only [lastIdx, hrest]
      congr 1
      omega
    | none =>
      simp only [lastIdx, hrest]
      rw [dictLookup_dictInsert]
      by_cases hpn : p.name = n
      · simp [hpn]
      · simp [hpn]

/-- The built dictionary maps every name to the position of its last
occurrence in the predicate list (and absent names to nothing). -/
theorem dictLookup_buildPredicateDictionary (ps : List Predicate) (n : String) :
    dictLookup (buildPredicateDictionary ps) n = lastIdx ps n := by
  have h := dictLookup_foldInsert ps [] 0 n
  cases hl : lastIdx ps n with
  | some j =>
    rw [hl] at h
    simpa using h
  | none =>
    rw [hl] at h
    simpa using h

/-- The one-hot encoder succeeds exactly by emitting, per decision, the
one-hot row of its dictionary index. -/
theorem decisionsToOneHot_spec (dict : List (String × Nat)) :
    ∀ (decs : List String) (out : List (List ℚ)),
    decisionsToOneHot dict decs = some out →
    out.length = decs.length
    ∧ ∀ (j : Nat) (name : String) (idx : Nat),
        decs.get? j = some name → dictLookup dict name = some idx →
        out.get? j = some (oneHotRow dict.length idx) := by
  intro decs
  induction decs with
  | nil =>
    intro out h
    simp only [decisionsToOneHot, Option.some.injEq] at h
    subst h
    refine ⟨rfl, ?_⟩
    intro j name idx hj
    simp at hj
  | cons dec rest ih =>
    intro out h
    unfold decisionsToOneHot at h
    split at h
    · cases h
    · next idx0 hd =>
      split at h
      · split at h
        · cases h
        · next out2 hrest =>
          injection h with h2
          subst h2
          obtain ⟨hlen, hidx⟩ := ih out2 hrest
          refine ⟨by simp [hlen], ?_⟩
          intro j name idx hj hlook
          cases j with
          | zero =>
            simp only [List.get?] at hj
            injection hj with hj2
            subst hj2
            rw [hd] at hlook
            injection hlook with h3
            subst h3
            rfl
          | succ j2 =>
            simp only [List.get?] at hj ⊢
            exact hidx j2 name idx hj hlook
      · cases h

/-- C7: the predicate dictionary maps each name to its position in the input
list, a duplicate being silently overwritten by its last occurrence; one-hot
encoding yields, per decision, a row of length equal to the dictionary size
with a single 1 at the decision's index; and the concrete walk/turn/stop
example behaves as the spec states. -/
theorem predicate_dictionary_one_hot_spec :
    (∀ (ps : List Predicate) (n : String),
        dictLookup (buildPredicateDictionary ps) n = lastIdx ps n)
    ∧ (∀ (dict : List (String × Nat)) (decs : List String) (out : List (List ℚ)),
        decisionsToOneHot dict decs = some out →
        out.length = decs.length
        ∧ ∀ (j : Nat) (name : String) (idx : Nat),
            decs.get? j = some name → dictLookup dict name = some idx →
            out.get? j = some (oneHotRow dict.length idx))
    ∧ (∀ size idx : Nat, (oneHotRow size idx).length = size
        ∧ ∀ j : Nat, j < size →
            (oneHotRow size idx).get? j = some (if j = idx then (1 : ℚ) else 0))
    ∧ buildPredicateDictionary [⟨"walk"⟩, ⟨"turn"⟩, ⟨"stop"⟩]
        = [("walk", 0), ("turn", 1), ("stop", 2)]
    ∧ decisionsToOneHot (buildPredicateDictionary [⟨"walk"⟩, ⟨"turn"⟩, ⟨"stop"⟩])
        ["turn", "stop"] = some [[0, 1, 0], [0, 0, 1]] := by
  refine ⟨dictLookup_buildPredicateDictionary, decisionsToOneHot_spec, ?_, ?_, ?_⟩
  · intro size idx
    refine ⟨by simp [oneHotRow], ?_⟩
    intro j hj
    rw [oneHotRow, List.get?_map, List.get?_range hj]
    rfl
  · decide
  · decide

/-- Witness for C7: one-hot encoding "turn" in the walk/turn/stop dictionary
puts the 1 at index 1. -/
theorem predicate_dictionary_one_hot_spec_witness :
    ([[(0 : ℚ), 1, 0], [0, 0, 1]] : List (List ℚ)).get? 0
      = some (oneHotRow
          (buildPredicateDictionary [⟨"walk"⟩, ⟨"turn"⟩, ⟨"stop"⟩]).length 1) :=
  (predicate_dictionary_one_hot_spec.2.1
      (buildPredicateDictionary [⟨"walk"⟩, ⟨"turn"⟩, ⟨"stop"⟩])
      ["turn", "stop"] [[0, 1, 0], [0, 0, 1]]
      (by decide)).2 0 "turn" 1 (by decide) (by decide)

/-! Claim C8. -/

/-- C8: `predictions` consults the policy instance fixed at construction
(chosen by the train flag, not re-derived), maps the terminated-path subset
over the returned beams in order, and when the policy yields one beam per
example the output has exactly one entry per example. -/
theorem predictions_spec (d : Decoder) (examples : List Example)
    (train verbose : Bool) :
    d.predictions examples train verbose
      = ((if train then d.trainExplorationPolicy else d.testExplorationPolicy).getBeams
          examples verbose).map Beam.getTerminated
    ∧ (∀ i : Nat, (d.predictions examples train verbose).get? i
        = (((d.explorationPolicy train).getBeams examples verbose).get? i).map
            Beam.getTerminated)
    ∧ (∀ b : Beam, (Beam.getTerminated b).paths
        = b.paths.filter (fun p => p.terminated))
    ∧ (((d.explorationPolicy train).getBeams examples verbose).length = examples.length →
        (d.predictions examples train verbose).length = examples.length) := by
  refine ⟨rfl, ?_, fun _ => rfl, ?_⟩
  · intro i
    simp [Decoder.predictions, List.get?_map]
  · intro h
    simp only [Decoder.predictions, List.length_map]
    exact h

/-- A decoder whose train exploration policy returns one empty beam per
example. -/
def predDecoder : Decoder :=
  { baseDecoder with trainExplorationPolicy := constPolicy ⟨[]⟩ }

/-- Witness for C8: one beam in, one prediction out. -/
theorem predictions_spec_witness :
    (predDecoder.predictions [exampleA] true false).length
      = ([exampleA] : List Example).length :=
  (predictions_spec predDecoder [exampleA] true false).2.2.2 rfl

/-! Claim C6. -/

/-- The cumulative case count after one more path. -/
theorem cumulCaseCount_succ (paths : List ParsePath) (i : Nat) (hi : i < paths.length) :
    cumulCaseCount paths (i + 1)
      = cumulCaseCount paths i + (paths.get ⟨i, hi⟩).cases.length := by
  unfold cumulCaseCount
  rw [List.take_succ, List.map_append, List.sum_append]
  congr 1
  rw [List.getElem?_eq_getElem hi]
  simp

/-- The final cumulative count is the length of the flattened case list. -/
theorem cumulCaseCount_total (paths : List ParsePath) :
    cumulCaseCount paths paths.length
      = ((paths.map ParsePath.cases).flatten).length := by
  unfold cumulCaseCount
  rw [List.take_length, List.length_flatten, List.map_map]
  rfl

/-- Every cumulative count is bounded by the total. -/
theorem cumulCaseCount_le_total (paths : List ParsePath) (i : Nat) :
    cumulCaseCount paths i ≤ cumulCaseCount paths paths.length := by
  unfold cumulCaseCount
  rw [List.take_length]
  conv_rhs => rw [← List.take_append_drop i paths]
  rw [List.map_append, List.sum_append]
  exact Nat.le_add_right _ _

/-- Length of one boundary slice of the flat result list. -/
theorem listSlice_group_length (l : List ℚ) (paths : List ParsePath) (i : Nat)
    (hi : i < paths.length)
    (hl : l.length = ((paths.map ParsePath.cases).flatten).length) :
    (listSlice l (cumulCaseCount paths i) (cumulCaseCount paths (i + 1))).length
      = (paths.get ⟨i, hi⟩).cases.length := by
  unfold listSlice
  rw [List.length_take, List.length_drop]
  have h1 : cumulCaseCount paths (i + 1) ≤ cumulCaseCount paths paths.length :=
    cumulCaseCount_le_total paths (i + 1)
  have h2 : cumulCaseCount paths paths.length = l.length := by
    rw [cumulCaseCount_total, hl]
  rw [cumulCaseCount_succ paths i hi] at h1 ⊢
  omega

/-- C6: provided the parse model returns one attention and one subscore entry
per flattened case (its interface contract), `score_breakdown` returns one
group per input path, in input order, the i-th group of either component
having exactly as many entries as the i-th path has cases; the empty path
list yields the pair of empty lists. -/
theorem scoreBreakdown_grouping_spec (d : Decoder) (paths : List ParsePath)
    (hA : (d.pmScoreBreakdown ((paths.map ParsePath.cases).flatten) false false).1.length
        = ((paths.map ParsePath.cases).flatten).length)
    (hS : (d.pmScoreBreakdown ((paths.map ParsePath.cases).flatten) false false).2.length
        = ((paths.map ParsePath.cases).flatten).length) :
    (d.scoreBreakdown paths).1.length = paths.length
    ∧ (d.scoreBreakdown paths).2.length = paths.length
    ∧ (∀ i : Nat, ((d.scoreBreakdown paths).1.get? i).map List.length
        = (paths.get? i).map (fun p => p.cases.length))
    ∧ (∀ i : Nat, ((d.scoreBreakdown paths).2.get? i).map List.length
        = (paths.get? i).map (fun p => p.cases.length))
    ∧ (paths = [] → d.scoreBreakdown paths = ([], [])) := by
  by_cases hp : paths.length = 0
  · have hnil : paths = [] := List.length_eq_zero.mp hp
    subst hnil
    refine ⟨rfl, rfl, ?_, ?_, fun _ => rfl⟩ <;>
      · intro i
        rfl
  · have hsb : d.scoreBreakdown paths
        = ((List.range paths.length).map
            (fun i => listSlice
              (d.pmScoreBreakdown ((paths.map ParsePath.cases).flatten) false false).1
              (cumulCaseCount paths i) (cumulCaseCount paths (i + 1))),
          (List.range paths.length).map
            (fun i => listSlice
              (d.pmScoreBreakdown ((paths.map ParsePath.cases).flatten) false false).2
              (cumulCaseCount paths i) (cumulCaseCount paths (i + 1)))) := by
      unfold Decoder.scoreBreakdown
      rw [if_neg hp]
    rw [hsb]
    refine ⟨by simp, by simp, ?_, ?_, by intro hnil; rw [hnil] at hp; simp at hp⟩
    · intro i
      by_cases hi : i < paths.length
      · rw [List.get?_map, List.get?_range hi, List.get?_eq_get hi]
        simp only [Option.map_some']
        rw [listSlice_group_length _ paths i hi hA]
      · have h1 : paths.length ≤ i := Nat.le_of_not_lt hi
        rw [List.get?_eq_none.mpr (by simpa using h1), List.get?_eq_none.mpr h1]
        rfl
    · intro i
      by_cases hi : i < paths.length
      · rw [List.get?_map, List.get?_range hi, List.get?_eq_get hi]
        simp only [Option.map_some']
        rw [listSlice_group_length _ paths i hi hS]
      · have h1 : paths.length ≤ i := Nat.le_of_not_lt hi
        rw [List.get?_eq_none.mpr (by simpa using h1), List.get?_eq_none.mpr h1]
        rfl

/-- The spec's worked example: paths with 3, 0 and 2 cases. -/
def pathsThreeZeroTwo : List ParsePath :=
  [mkPath [1, 2, 3] 0 0 true "d", mkPath [] 0 0 true "d", mkPath [4, 5] 0 0 true "d"]

/-- Witness for C6: the first group of the spec's worked example has 3 entries. -/
theorem scoreBreakdown_grouping_spec_witness :
    ((baseDecoder.scoreBreakdown pathsThreeZeroTwo).1.get? 0).map List.length
      = (pathsThreeZeroTwo.get? 0).map (fun p => p.cases.length) :=
  (scoreBreakdown_grouping_spec baseDecoder pathsThreeZeroTwo
    (by simp [baseDecoder]) (by simp [baseDecoder])).2.2.1 0

/-! Claim C10. -/

/-- Iterating the decomposable loop over empty beams changes nothing: every
iteration hits the `continue`. -/
theorem decompFold_empty (d : Decoder) (pairs : List (Example × Beam))
    (st : DecompState) (h : ∀ p ∈ pairs, p.2.paths = []) :
    pairs.foldl (fun st2 p => decompExampleStep d p.1 p.2 st2) st = st := by
  induction pairs generalizing st with
  | nil => rfl
  | cons q rest ih =>
    have hq : q.2.paths = [] := h q (List.mem_cons_self _ _)
    have hstep : decompExampleStep d q.1 q.2 st = st := by
      unfold decompExampleStep
      rw [hq]
    rw [List.foldl_cons, hstep]
    exact ih st (fun p hp => h p (List.mem_cons_of_mem _ hp))

/-- C10: calling `train_decomposable_batches` (from a state with the
non-negative step counter the decoder maintains) on a batch whose beams all
have zero paths — the empty batch included — increments `_train_step_count`
and then raises `UnboundLocalError` at the `beam_batch_correct` conversion
after the loop: the failed call has already mutated the counter, so it is not
a state-preserving no-op. -/
theorem trainDecomposable_empty_beams_unbound (d : Decoder) (s : DecoderState)
    (beams : List Beam) (examples : List Example)
    (hcnt : 0 ≤ s.trainStepCount)
    (hempty : ∀ p ∈ examples.zip beams, p.2.paths = []) :
    trainDecomposableBatches d s beams examples
      = ({ s with trainStepCount := s.trainStepCount + 1 },
         Except.error PyError.unboundLocalError) := by
  have hc : ¬ s.trainStepCount + 1 < 0 := by omega
  unfold trainDecomposableBatches
  simp only [hc, if_false, ite_false]
  rw [decompFold_empty d (examples.zip beams) _ hempty]

/-- Witness for C10: a one-example batch with an empty beam. -/
theorem trainDecomposable_empty_beams_unbound_witness :
    trainDecomposableBatches baseDecoder DecoderState.initial [⟨[]⟩] [exampleA]
      = ({ DecoderState.initial with
            trainStepCount := DecoderState.initial.trainStepCount + 1 },
         Except.error PyError.unboundLocalError) :=
  trainDecomposable_empty_beams_unbound baseDecoder DecoderState.initial [⟨[]⟩]
    [exampleA] (by decide)
    (by intro p hp; simp at hp; subst hp; rfl)

/-! Claims C1 and C2. -/

/-- The per-example assertion loop of `train_step` raises the assertion
whenever any example's flattened weights disagree with its beam's total case
count. -/
theorem collectCases_error_of_mismatch (d : Decoder) (pairs : List (Example × Beam))
    (h : ∃ p ∈ pairs, ((d.caseWeighter p.2 p.1).flatten).length
        ≠ ((p.2.paths.map (fun q => q.cases.length)).sum)) :
    collectCases d pairs = Except.error PyError.assertionError := by
  induction pairs with
  | nil =>
    obtain ⟨p, hp, _⟩ := h
    cases hp
  | cons q rest ih =>
    obtain ⟨p, hp, hne⟩ := h
    obtain ⟨ex, beam⟩ := q
    unfold collectCases
    by_cases hq : ((d.caseWeighter beam ex).flatten).length
        = ((beam.paths.map (fun q => q.cases.length)).sum)
    · rw [if_pos hq]
      rcases List.mem_cons.mp hp with h1 | h1
      · rw [h1] at hne
        exact absurd hq hne
      · rw [ih ⟨p, h1, hne⟩]
    · rw [if_neg hq]

/-- One path-loop iteration keeps `beam_batch_correct` bound. -/
theorem decompPathStep_bbc_isSome (d : Decoder) (ex : Example) (uEmb : List ℚ)
    (sentence ws : String) (st : DecompState) (p : ParsePath)
    (h : st.beamBatchCorrect.isSome = true) :
    ((decompPathStep d ex uEmb sentence ws st p).beamBatchCorrect).isSome = true := by
  unfold decompPathStep
  by_cases hcd : d.checkDenotation ex.answer p.finalizedDenotation <;> simp [hcd, h]

/-- The path loop keeps `beam_batch_correct` bound. -/
theorem foldl_decompPathStep_bbc (d : Decoder) (ex : Example) (uEmb : List ℚ)
    (sentence ws : String) (l : List ParsePath) :
    ∀ st : DecompState, st.beamBatchCorrect.isSome = true →
    ((l.foldl (decompPathStep d ex uEmb sentence ws) st).beamBatchCorrect).isSome = true := by
  induction l with
  | nil => exact fun st h => h
  | cons p tl ih =>
    intro st h
    rw [List.foldl_cons]
    exact ih _ (decompPathStep_bbc_isSome d ex uEmb sentence ws st p h)

/-- One example-loop iteration either leaves `beam_batch_correct` bound or
was skipped on an empty beam. -/
theorem decompExampleStep_bbc (d : Decoder) (ex : Example) (beam : Beam)
    (st : DecompState) :
    ((decompExampleStep d ex beam st).beamBatchCorrect).isSome = true
    ∨ (decompExampleStep d ex beam st = st ∧ beam.paths = []) := by
  unfold decompExampleStep
  cases hb : beam.paths with
  | nil => exact Or.inr ⟨rfl, rfl⟩
  | cons p0 tl =>
    left
    exact foldl_decompPathStep_bbc d ex _ _ _ (p0 :: tl) _ rfl

/-- A bound `beam_batch_correct` stays bound across the example loop. -/
theorem foldl_decompExampleStep_mono (d : Decoder) (pairs : List (Example × Beam)) :
    ∀ st : DecompState, st.beamBatchCorrect.isSome = true →
    (((pairs.foldl (fun st2 p => decompExampleStep d p.1 p.2 st2) st)).beamBatchCorrect).isSome
      = true := by
  induction pairs with
  | nil => exact fun st h => h
  | cons q rest ih =>
    intro st h
    rw [List.foldl_cons]
    apply ih
    rcases decompExampleStep_bbc d q.1 q.2 st with h1 | ⟨h1, _⟩
    · exact h1
    · rw [h1]; exact h

/-- If some zipped beam is non-empty, the example loop binds
`beam_batch_correct`. -/
theorem foldl_decompExampleStep_bbc_of_nonempty (d : Decoder)
    (pairs : List (Example × Beam)) (h : ∃ p ∈ pairs, p.2.paths ≠ []) :
    ∀ st : DecompState,
    (((pairs.foldl (fun st2 p => decompExampleStep d p.1 p.2 st2) st)).beamBatchCorrect).isSome
      = true := by
  induction pairs with
  | nil =>
    obtain ⟨p, hp, _⟩ := h
    cases hp
  | cons q rest ih =>
    intro st
    obtain ⟨p, hp, hne⟩ := h
    rw [List.foldl_cons]
    rcases List.mem_cons.mp hp with h1 | h1
    · apply foldl_decompExampleStep_mono
      rcases decompExampleStep_bbc d q.1 q.2 st with h2 | ⟨_, h2⟩
      · exact h2
      · rw [h1] at hne
        exact absurd h2 hne
    · exact ih ⟨p, h1, hne⟩ _

/-- `train_decomposable_batches` can only raise the unbound-local error, and
only from a non-negative counter with every zipped beam empty. -/
theorem trainDecomposable_error_cases (d : Decoder) (s : DecoderState)
    (beams : List Beam) (examples : List Example) (e : PyError)
    (h : (trainDecomposableBatches d s beams examples).2 = Except.error e) :
    e = PyError.unboundLocalError
    ∧ ¬ s.trainStepCount + 1 < 0
    ∧ ∀ p ∈ examples.zip beams, p.2.paths = [] := by
  by_cases hc : s.trainStepCount + 1 < 0
  · exfalso
    unfold trainDecomposableBatches at h
    simp [hc] at h
  · unfold trainDecomposableBatches at h
    simp only [hc, if_false, ite_false] at h
    cases hbbc : ((examples.zip beams).foldl
        (fun st p => decompExampleStep d p.1 p.2 st)
        { beamBatch0 := [], yHatBatch := [], decisions := [], utterances := []
          worldStates := [], beamBatchCorrect := none
          correct := s.correctPredictions
          allPreds := s.allPredictions }).beamBatchCorrect with
    | none =>
      rw [hbbc] at h
      simp only [Prod.snd] at h
      refine ⟨by injection h with h2; exact h2.symm, hc, ?_⟩
      intro p hp
      by_contra hne
      have := foldl_decompExampleStep_bbc_of_nonempty d (examples.zip beams)
        ⟨p, hp, hne⟩
        { beamBatch0 := [], yHatBatch := [], decisions := [], utterances := []
          worldStates := [], beamBatchCorrect := none
          correct := s.correctPredictions
          allPreds := s.allPredictions }
      rw [hbbc] at this
      cases this
    | some x =>
      rw [hbbc] at h
      cases h

/-- C1 (amended): when the case weighter's flattened output for some example
of the batch has the wrong length, `train_step` raises before issuing any
value-function or scoring-model update; the raise is the fatal assertion
whenever the weighter loop is reached — that is, unless the step counter is
non-negative and every example's beam is empty, in which case the auxiliary
decomposable routine's unbound-local error is raised first (still before any
update). -/
theorem trainStep_weight_mismatch_aborts (d : Decoder) (s : DecoderState)
    (examples : List Example)
    (hmis : ∃ p ∈ examples.zip (d.predictions examples true false),
        ((d.caseWeighter p.2 p.1).flatten).length
          ≠ ((p.2.paths.map (fun q => q.cases.length)).sum)) :
    ((d.trainStep s examples).error).isSome = true
    ∧ (d.trainStep s examples).vfUpdates = []
    ∧ (d.trainStep s examples).pmUpdates = []
    ∧ (((∃ p ∈ examples.zip (d.predictions examples true false), p.2.paths ≠ [])
          ∨ s.trainStepCount + 1 < 0)
        → (d.trainStep s examples).error = some PyError.assertionError) := by
  have hcoll := collectCases_error_of_mismatch d
    (examples.zip (d.predictions examples true false)) hmis
  rcases htd : trainDecomposableBatches d s (d.predictions examples true false) examples
    with ⟨s1, res⟩
  cases res with
  | error e =>
    have hch := trainDecomposable_error_cases d s
      (d.predictions examples true false) examples e (by rw [htd])
    have hout : d.trainStep s examples
        = { state := s1, vfUpdates := [], pmUpdates := [], error := some e } := by
      simp only [Decoder.trainStep]
      rw [htd]
    rw [hout]
    refine ⟨rfl, rfl, rfl, ?_⟩
    intro hdisj
    exfalso
    rcases hdisj with h1 | h1
    · obtain ⟨p, hp, hne⟩ := h1
      exact hne (hch.2.2 p hp)
    · exact hch.2.1 h1
  | ok dd =>
    have hout : d.trainStep s examples
        = { state := { s1 with decomposableData := dd }, vfUpdates := [],
            pmUpdates := [], error := some PyError.assertionError } := by
      simp only [Decoder.trainStep]
      rw [htd, hcoll]
    rw [hout]
    exact ⟨rfl, rfl, rfl, fun _ => rfl⟩

/-- A beam with one terminated two-case path. -/
def twoCaseBeam : Beam := ⟨[mkPath [7, 8] 0 0 true "d"]⟩

/-- A decoder whose train policy yields `twoCaseBeam` for every example and
whose case weighter always returns a single weight — the wrong count. -/
def mismatchDecoder : Decoder :=
  { baseDecoder with
    trainExplorationPolicy := constPolicy twoCaseBeam
    caseWeighter := fun _ _ => [[1]] }

/-- Witness for C1: a mismatching weighter on a non-empty beam makes
`train_step` raise the assertion with no update issued. -/
theorem trainStep_weight_mismatch_aborts_witness :
    (mismatchDecoder.trainStep DecoderState.initial [exampleA]).error
      = some PyError.assertionError :=
  (trainStep_weight_mismatch_aborts mismatchDecoder DecoderState.initial [exampleA]
    (by refine ⟨(exampleA, twoCaseBeam), by decide, by decide⟩)).2.2.2
    (Or.inl ⟨(exampleA, twoCaseBeam), by decide, by decide⟩)

/-- A decoder whose train policy yields an empty beam for every example and
whose case weighter always returns a single weight — the wrong count. -/
def emptyBeamMismatchDecoder : Decoder :=
  { baseDecoder with
    trainExplorationPolicy := constPolicy ⟨[]⟩
    caseWeighter := fun _ _ => [[1]] }

/-- Counterexample to C1 as stated: for this batch the (sole) example's
weighter output has length 1 while the beam's total case count is 0, yet
`train_step` does not raise the assertion — the auxiliary decomposable
routine raises `UnboundLocalError` first, before the weighter loop runs. -/
theorem trainStep_weight_mismatch_counterexample :
    ((emptyBeamMismatchDecoder.caseWeighter (Beam.mk []) exampleA).flatten).length
      ≠ (((Beam.mk [] : Beam).paths.map (fun q => q.cases.length)).sum)
    ∧ emptyBeamMismatchDecoder.predictions [exampleA] true false = [Beam.mk []]
    ∧ (emptyBeamMismatchDecoder.trainStep DecoderState.initial [exampleA]).error
        = some PyError.unboundLocalError
    ∧ some PyError.unboundLocalError ≠ some PyError.assertionError := by
  refine ⟨by decide, by decide, by decide, by decide⟩

/-- Zipping the two projections of a pair list recovers the list. -/
theorem zip_map_fst_snd (l : List (ParseCase × ℚ)) :
    (l.map Prod.fst).zip (l.map Prod.snd) = l := by
  induction l with
  | nil => rfl
  | cons a t ih => simp [ih]

/-- C2: the case/weight list passed to the scoring-model update is exactly
the concatenated per-example sequence with the zero-weight pairs removed: no
zero-weight pair appears, every non-zero-weight pair appears, and the kept
pairs form a sublist (the original relative order) of the concatenated
sequence. -/
theorem trainStep_zero_weight_pruning (d : Decoder) (s : DecoderState)
    (examples : List Example) (allC : List ParseCase) (allW : List ℚ)
    (hok : collectCases d (examples.zip (d.predictions examples true false))
        = Except.ok (allC, allW))
    (herr : (d.trainStep s examples).error = none) :
    (d.trainStep s examples).pmUpdates
      = [((pruneZeroWeights allC allW).1, (pruneZeroWeights allC allW).2, false)]
    ∧ (pruneZeroWeights allC allW).1.zip (pruneZeroWeights allC allW).2
        = (allC.zip allW).filter (fun cw => cw.2 != 0)
    ∧ (∀ cw ∈ (pruneZeroWeights allC allW).1.zip (pruneZeroWeights allC allW).2,
        cw.2 ≠ 0)
    ∧ (∀ cw ∈ allC.zip allW, cw.2 ≠ 0 →
        cw ∈ (pruneZeroWeights allC allW).1.zip (pruneZeroWeights allC allW).2)
    ∧ List.Sublist
        ((pruneZeroWeights allC allW).1.zip (pruneZeroWeights allC allW).2)
        (allC.zip allW) := by
  have hzip : (pruneZeroWeights allC allW).1.zip (pruneZeroWeights allC allW).2
      = (allC.zip allW).filter (fun cw => cw.2 != 0) := by
    unfold pruneZeroWeights
    exact zip_map_fst_snd _
  refine ⟨?_, hzip, ?_, ?_, ?_⟩
  · rcases htd : trainDecomposableBatches d s (d.predictions examples true false) examples
      with ⟨s1, res⟩
    cases res with
    | error e =>
      exfalso
      have hbad : (d.trainStep s examples).error = some e := by
        simp only [Decoder.trainStep]
        rw [htd]
      rw [herr] at hbad
      cases hbad
    | ok dd =>
      have hout : (d.trainStep s examples).pmUpdates
          = [((pruneZeroWeights allC allW).1, (pruneZeroWeights allC allW).2, false)] := by
        simp only [Decoder.trainStep]
        rw [htd, hok]
      exact hout
  · intro cw hcw
    rw [hzip] at hcw
    have := List.of_mem_filter hcw
    simpa using this
  · intro cw hcw hne
    rw [hzip]
    exact List.mem_filter.mpr ⟨hcw, by simpa using hne⟩
  · rw [hzip]
    exact List.filter_sublist _

/-- A decoder whose train policy yields one terminated two-case beam per
example and whose weighter gives those cases the weights 0 and 5. -/
def pruneDecoder : Decoder :=
  { baseDecoder with
    trainExplorationPolicy := constPolicy ⟨[mkPath [10, 11] 0 0 true "d"]⟩
    caseWeighter := fun _ _ => [[0, 5]] }

/-- Witness for C2: the zero-weight case 10 is pruned, case 11 with weight 5
is passed to the scoring-model update. -/
theorem trainStep_zero_weight_pruning_witness :
    (pruneDecoder.trainStep DecoderState.initial [exampleA]).pmUpdates
      = [((pruneZeroWeights [⟨10⟩, ⟨11⟩] [0, 5]).1,
          (pruneZeroWeights [⟨10⟩, ⟨11⟩] [0, 5]).2, false)] :=
  (trainStep_zero_weight_pruning pruneDecoder DecoderState.initial [exampleA]
    [⟨10⟩, ⟨11⟩] [0, 5] (by rfl) (by decide)).1
